import Mathlib

/-!
Verification development for `sktime/forecasting/conformal.py`
(`ConformalIntervals`): a shallow embedding of the conformal /
empirical prediction-interval wrapper, with theorems about the
quantile engine, the window parser, the residual-matrix builder and
the incremental updater.

Numeric values are embedded as rationals (`ℚ`); `NaN` entries of the
residual matrix are embedded as `Option ℚ` with `none` for `NaN`;
Python exceptions are embedded as the `exn` constructor of `PyResult`,
carrying the exception class name.
-/

namespace Conformal

/-- Result of a Python call: a value, or a raised exception (by class name). -/
inductive PyResult (α : Type) where
  | ok (val : α)
  | exn (name : String)
deriving DecidableEq, Repr

/-- The four method tags accepted by `ConformalIntervals`. -/
inductive Method where
  | empirical
  | empirical_residual
  | conformal
  | conformal_bonferroni
deriving DecidableEq, Repr

/-- `ConformalIntervals.ALLOWED_METHODS` (conformal.py lines 99-104). -/
def ALLOWED_METHODS : List String :=
  ["empirical", "empirical_residual", "conformal", "conformal_bonferroni"]

/-- A user-supplied `initial_window` argument: Python `int`, Python
`float` (fraction), or a value of some other, non-numeric dtype kind. -/
inductive WindowSpec where
  | int (i : ℤ)
  | frac (q : ℚ)
  | other
deriving DecidableEq, Repr

/-- `ConformalIntervals.__init__` (conformal.py lines 106-142).

The constructor validates only `method` (`TypeError` for a non-string
is outside this embedding since `method` is typed `String` here; the
`ValueError` branch for an unknown method is embedded).  All other
arguments, `initial_window` and `sample_frac` included, are stored
without any inspection. -/
def conformalIntervalsInit (method : String) (initial_window : Option WindowSpec)
    (sample_frac : Option ℚ) : PyResult Unit :=
  if method ∈ ALLOWED_METHODS then .ok ()
  else .exn "ValueError"

/-- `ConformalIntervals._parse_initial_window` (conformal.py lines 296-327).

`n` is `len(y)`.  A missing `initial_window` defaults to
`max(10, floor(0.1 * n))`, which then flows through the integer-kind
validation `0 < w < n` like a user-supplied integer.  Floats must lie
strictly in `(0, 1)` and are scaled by `n`; any other dtype kind is a
`ValueError`. -/
def parse_initial_window (n : ℕ) (spec : Option WindowSpec) : PyResult ℤ :=
  let iw : WindowSpec :=
    match spec with
    | none => .int (max 10 (Int.floor ((n : ℚ) / 10)))
    | some w => w
  match iw with
  | .int i => if i ≥ (n : ℤ) ∨ i ≤ 0 then .exn "ValueError" else .ok i
  | .frac q => if q ≤ 0 ∨ q ≥ 1 then .exn "ValueError" else .ok (Int.floor (q * n))
  | .other => .exn "ValueError"

/-! ## Quantile engine (numpy `np.quantile`, linear interpolation) -/

/-- Linear ("type 7") interpolation between order statistics of an
already-sorted sample, the default mode of `np.quantile`: the value at
probability `p` is read off at fractional position `p * (n - 1)`.
Empty input is mapped to `0` (numpy would raise; all uses in the
embedded code are guarded by the caller). -/
def interpSorted (s : List ℚ) (p : ℚ) : ℚ :=
  if s.length = 0 then 0
  else
    let pos : ℚ := p * ((s.length : ℚ) - 1)
    let lo : ℕ := (Int.floor pos).toNat
    let hi : ℕ := (Int.ceil pos).toNat
    s.getD lo 0 + (pos - (lo : ℚ)) * (s.getD hi 0 - s.getD lo 0)

/-- `np.quantile(xs, p)` with the default linear interpolation:
sort, then interpolate between the two nearest order statistics. -/
def npQuantile (xs : List ℚ) (p : ℚ) : ℚ :=
  interpSorted (xs.insertionSort (· ≤ ·)) p

/-- `np.repeat(coverage, 2)` (conformal.py line 236): each element
duplicated in place. -/
def npRepeat2 (xs : List ℚ) : List ℚ :=
  xs.flatMap (fun c => [c, c])

/-- `np.tile(pat, k)`: the pattern repeated `k` times end to end
(conformal.py line 238 with `pat = [-0.5, 0.5]`, `k = len(coverage)`). -/
def npTile (pat : List ℚ) (k : ℕ) : List ℚ :=
  (List.replicate k pat).flatten

/-! ## Residual matrix -/

/-- The residual matrix `residuals_matrix_`: a square frame with row
and column labels `index` (positions into `y`), entries `Option ℚ`
with `none` embedding `NaN`.  `rows` is in the order of `index`. -/
structure ResidMatrix where
  index : List ℕ
  rows : List (List (Option ℚ))
deriving DecidableEq, Repr

/-- `np.diagonal(residuals_matrix, offset=offset)` followed by the
`resids[~np.isnan(resids)]` filter (conformal.py lines 233-234): the
`offset`-th super-diagonal of the values array with `NaN`s removed. -/
def diagonalResids (m : ResidMatrix) (offset : ℕ) : List ℚ :=
  (List.range (m.index.length - offset)).filterMap
    (fun i => (m.rows.getD i []).getD (i + offset) none)

/-- `ABS_RESIDUAL_BASED` (conformal.py line 228). -/
def ABS_RESIDUAL_BASED : List Method :=
  [.conformal, .conformal_bonferroni, .empirical_residual]

/-- The per-method quantile probabilities computed in
`_predict_interval` (conformal.py lines 236-248), with
`coverage2 = np.repeat(coverage, 2)` and `H = len(fh)`. -/
def quantileProbs (method : Method) (coverage : List ℚ) (H : ℕ) : List ℚ :=
  let coverage2 := npRepeat2 coverage
  match method with
  | .empirical =>
      List.zipWith (fun t c => 1 / 2 + t * c) (npTile [-(1 / 2), 1 / 2] coverage.length) coverage2
  | .empirical_residual =>
      coverage2.map (fun c => 1 / 2 - 1 / 2 * c)
  | .conformal_bonferroni =>
      coverage2.map (fun c => 1 - (1 - c) / (H : ℚ))
  | .conformal =>
      coverage2

/-- `pred_int_row` for one horizon in `_predict_interval` (conformal.py
lines 232-249): extract the `offset`-th diagonal, drop `NaN`s, and take
quantiles of the signed residuals (`empirical`) or of their absolute
values (all other methods) at the method's probabilities. -/
def pred_int_row (method : Method) (m : ResidMatrix) (offset H : ℕ)
    (coverage : List ℚ) : List ℚ :=
  let resids := diagonalResids m offset
  let abs_resids := resids.map (fun r => |r|)
  let sample := if method = .empirical then resids else abs_resids
  (quantileProbs method coverage H).map (npQuantile sample)

/-- The final interval entries for one horizon (conformal.py lines
251-262): the row of quantiles in column order
`(c₁, lower), (c₁, upper), (c₂, lower), …`, each added to the point
forecast `y_pred` with sign `1 - 2·[col = lower]` for the
absolute-residual methods and sign `1` otherwise. -/
def predict_interval_entries (method : Method) (m : ResidMatrix) (offset H : ℕ)
    (coverage : List ℚ) (y_pred : ℚ) : List ℚ :=
  ((pred_int_row method m offset H coverage).enum).map
    (fun p =>
      let sign : ℚ :=
        if method ∈ ABS_RESIDUAL_BASED then
          1 - 2 * (if p.1 % 2 = 0 then 1 else 0)
        else 1
      y_pred + sign * p.2)

/-- Width (upper minus lower bound) of the interval `_predict_interval`
returns for a single coverage value `c` at one horizon. -/
def interval_width (method : Method) (m : ResidMatrix) (offset H : ℕ)
    (c : ℚ) (y_pred : ℚ) : ℚ :=
  let e := predict_interval_entries method m offset H [c] y_pred
  e.getD 1 0 - e.getD 0 0

/-! ## Residual matrix builder -/

/-- Abstract model of the wrapped point forecaster, as used by the
residual-matrix builder: `predict train j` is the point prediction for
position `j` after fitting on the prefix `train` of `y`;
`raisesIndexError train` says whether `predict_residuals` raises an
`IndexError` after fitting on `train` (the only failure mode the
builder's `try` block distinguishes). -/
structure Forecaster where
  predict : List ℚ → ℕ → ℚ
  raisesIndexError : List ℚ → Bool

/-- Result of one worker task of `_get_residuals_matrix_row`:
warnings emitted, and either the residual series (pairs of index
position and signed residual, over `y_test.index`) or an exception. -/
structure RowResult where
  warnings : List String
  value : PyResult (List (ℕ × ℚ))
deriving DecidableEq, Repr

/-- `_get_residuals_matrix_row` (conformal.py lines 381-396): fit a
clone on `y[:i]`, then `predict_residuals(y_test)` with
`y_test = y[i:]`.  On success the signed residuals
`y[j] - forecast(j)` for `j ≥ i` are returned.  On `IndexError` the
`except` branch emits a warning and then executes `return residuals`
with the local `residuals` never assigned, so the call raises
`UnboundLocalError`. -/
def get_residuals_matrix_row (fc : Forecaster) (y : List ℚ) (i : ℕ) : RowResult :=
  let y_train := y.take i
  if fc.raisesIndexError y_train then
    { warnings :=
        ["Couldn't predict after fitting on time series of length " ++
          toString y_train.length],
      value := .exn "UnboundLocalError" }
  else
    { warnings := [],
      value := .ok (((List.range y.length).drop i).map
        (fun j => (j, y.getD j 0 - fc.predict y_train j))) }

/-- Model of `pandas.Series.sample(frac=...)` as called at
conformal.py line 379: the call passes no `random_state`, so the drawn
subset depends on the ambient global RNG state, threaded here as
`rng`.  The model draws `⌊frac · |idx|⌋` elements without replacement,
starting at an RNG-dependent position; the exact permutation is
irrelevant to the theorems, only that the result is a sub-list
selected by the ambient state. -/
def pandasSampleNoSeed (rng : ℕ) (frac : ℚ) (idx : List ℕ) : List ℕ :=
  let k := (Int.floor (frac * (idx.length : ℚ))).toNat
  (idx.rotateLeft (rng % (idx.length + 1))).take k

/-- Python truthiness of the `sample_frac` attribute
(`if sample_frac:` at conformal.py line 378): `None`, `0` and `0.0`
are all falsy. -/
def truthy (q : Option ℚ) : Bool :=
  match q with
  | none => false
  | some x => x != 0

/-- Entry of a residual matrix at row label `i`, column label `j`
(`NaN`, i.e. `none`, when a label is absent). -/
def ResidMatrix.entry (m : ResidMatrix) (i j : ℕ) : Option ℚ :=
  match m.index.findIdx? (· = i), m.index.findIdx? (· = j) with
  | some r, some c => (m.rows.getD r []).getD c none
  | _, _ => none

/-- `ConformalIntervals._compute_sliding_residuals` (conformal.py
lines 329-405).  `old = some m` embeds the `update=True` path with
`residuals_matrix_ = m` present: anchors are restricted to the index
difference and previously computed entries are preserved.  When
`sample_frac` is truthy the anchor set is sub-sampled by the unseeded
sampler.  Each anchor's row is computed by
`get_residuals_matrix_row`; an exception in any worker propagates and
the build fails.  Rows are keyed by anchor label, not by completion
order. -/
def compute_sliding_residuals (fc : Forecaster) (y : List ℚ)
    (initial_window : Option WindowSpec) (sample_frac : Option ℚ)
    (rng : ℕ) (old : Option ResidMatrix) : PyResult ResidMatrix :=
  match parse_initial_window y.length initial_window with
  | .exn e => .exn e
  | .ok w =>
    let fullIndex := (List.range y.length).drop w.toNat
    let anchors0 :=
      match old with
      | some m => fullIndex.filter (fun i => ¬ i ∈ m.index)
      | none => fullIndex
    let anchors :=
      if truthy sample_frac then pandasSampleNoSeed rng (sample_frac.getD 0) anchors0
      else anchors0
    let results := anchors.map (fun i => (i, get_residuals_matrix_row fc y i))
    if results.any (fun r =>
        match r.2.value with
        | .exn _ => true
        | .ok _ => false) then
      .exn "UnboundLocalError"
    else
      .ok
        { index := fullIndex,
          rows := fullIndex.map (fun i =>
            match results.lookup i with
            | some rr =>
                match rr.value with
                | .ok pairs => fullIndex.map (fun j => pairs.lookup j)
                | .exn _ => fullIndex.map (fun _ => none)
            | none =>
                match old with
                | some m => fullIndex.map (fun j => m.entry i j)
                | none => fullIndex.map (fun _ => none)) }

/-- The residual-matrix part of `ConformalIntervals._update`
(conformal.py lines 163-174): recompute (with `update=True`) only when
`residuals_matrix_.index.max() < y.index.max()`; a comparison with a
`NaN` side (an empty index) is falsy in pandas, so nothing is
recomputed then. -/
def update_step (fc : Forecaster) (st : ResidMatrix) (y : List ℚ)
    (initial_window : Option WindowSpec) (sample_frac : Option ℚ)
    (rng : ℕ) : PyResult ResidMatrix :=
  match st.index.max?, (List.range y.length).max? with
  | some mMax, some yMax =>
      if mMax < yMax then
        compute_sliding_residuals fc y initial_window sample_frac rng (some st)
      else .ok st
  | _, _ => .ok st

/-! ## Spec-side descriptions (for the refinement claim C1) -/

/-- The quantile levels exactly as the spec's Step B table states
them, written per coverage value: each coverage `c` contributes a
(lower, upper) pair of levels.  `empirical` uses
`0.5 + (-0.5, +0.5) ⊗ c`; `empirical_residual` uses `0.5 - 0.5·c`
twice; `conformal` uses `c` twice; `conformal_bonferroni` uses
`1 - (1 - c)/H` twice. -/
def specQuantileLevels (method : Method) (coverage : List ℚ) (H : ℕ) : List ℚ :=
  match method with
  | .empirical => coverage.flatMap (fun c => [1 / 2 - 1 / 2 * c, 1 / 2 + 1 / 2 * c])
  | .empirical_residual => coverage.flatMap (fun c => [1 / 2 - 1 / 2 * c, 1 / 2 - 1 / 2 * c])
  | .conformal => coverage.flatMap (fun c => [c, c])
  | .conformal_bonferroni =>
      coverage.flatMap (fun c => [1 - (1 - c) / (H : ℚ), 1 - (1 - c) / (H : ℚ)])

/-- The sample the spec says each method takes quantiles of: the
lag-`h` residuals (the `h`-th diagonal of the residual matrix with
`NaN`s removed), signed for `empirical` and absolute for the other
three methods. -/
def specSample (method : Method) (m : ResidMatrix) (offset : ℕ) : List ℚ :=
  match method with
  | .empirical => diagonalResids m offset
  | _ => (diagonalResids m offset).map (fun r => |r|)

/-! ## Concrete fixtures used by witnesses and counterexamples -/

/-- A forecaster whose point prediction is always `0` and whose
`predict_residuals` never raises. -/
def fcZero : Forecaster :=
  { predict := fun _ _ => 0, raisesIndexError := fun _ => false }

/-- A forecaster whose `predict_residuals` raises `IndexError` exactly
after fitting on a training window of length `2`. -/
def fcFailAt2 : Forecaster :=
  { predict := fun _ _ => 0, raisesIndexError := fun t => t.length == 2 }

/-- A small residual matrix whose first super-diagonal is `[0, 1]`. -/
def Mex : ResidMatrix :=
  { index := [1, 2, 3],
    rows := [[some 0, some 0, none], [none, some 0, some 1], [none, none, some 5]] }

/-- The residual matrix produced by fitting on `y = [0, 1, 2, 3]` with
`initial_window = 2` and the zero forecaster. -/
def MFit4 : ResidMatrix :=
  { index := [2, 3], rows := [[some 2, some 3], [none, some 3]] }

/-- The residual matrix after one `update` to `y = [0, 1, 2, 3, 4, 5]`
from `MFit4`. -/
def MUpd6 : ResidMatrix :=
  { index := [2, 3, 4, 5],
    rows := [[some 2, some 3, none, none], [none, some 3, none, none],
             [none, none, some 4, some 5], [none, none, none, some 5]] }

theorem sortedGetD {s : List ℚ} (hs : List.Sorted (· ≤ ·) s) {i j : ℕ}
    (hij : i ≤ j) (hj : j < s.length) : s.getD i 0 ≤ s.getD j 0 := by
  have hi : i < s.length := lt_of_le_of_lt hij hj
  rw [List.getD_eq_getElem s 0 hi, List.getD_eq_getElem s 0 hj]
  have h := List.Sorted.rel_get_of_le hs (a := ⟨i, hi⟩) (b := ⟨j, hj⟩) hij
  simpa using h

theorem interpSorted_mono {s : List ℚ} (hs : List.Sorted (· ≤ ·) s)
    {p q : ℚ} (hp0 : 0 ≤ p) (hpq : p ≤ q) (hq1 : q ≤ 1) :
    interpSorted s p ≤ interpSorted s q := by
  rcases Nat.eq_zero_or_pos s.length with h0 | hpos
  · simp [interpSorted, h0]
  have hn : s.length ≠ 0 := Nat.pos_iff_ne_zero.mp hpos
  have hN0 : (0 : ℚ) ≤ (s.length : ℚ) - 1 := by
    have : (1 : ℚ) ≤ (s.length : ℚ) := by exact_mod_cast hpos
    linarith
  set N : ℚ := (s.length : ℚ) - 1 with hNdef
  set x : ℚ := p * N with hxdef
  set y : ℚ := q * N with hydef
  have hx0 : 0 ≤ x := mul_nonneg hp0 hN0
  have hxy : x ≤ y := mul_le_mul_of_nonneg_right hpq hN0
  have hyN : y ≤ N := by
    calc y = q * N := rfl
    _ ≤ 1 * N := mul_le_mul_of_nonneg_right hq1 hN0
    _ = N := one_mul N
  have hy0 : 0 ≤ y := le_trans hx0 hxy
  have hxN : x ≤ N := le_trans hxy hyN
  -- generic facts for any 0 ≤ z ≤ N
  have hfl0 : ∀ z : ℚ, 0 ≤ z → (((Int.floor z).toNat : ℚ)) = ((Int.floor z : ℤ) : ℚ) := by
    intro z hz
    exact_mod_cast congrArg (fun t : ℤ => (t : ℚ)) (Int.toNat_of_nonneg (Int.floor_nonneg.mpr hz))
  have hceil_lt : ∀ z : ℚ, z ≤ N → (Int.ceil z).toNat < s.length := by
    intro z hz
    have h1 : Int.ceil z ≤ (s.length : ℤ) - 1 := by
      rw [Int.ceil_le]
      push_cast
      linarith
    have h2 : (Int.ceil z).toNat ≤ ((s.length : ℤ) - 1).toNat := Int.toNat_le_toNat h1
    have h3 : ((s.length : ℤ) - 1).toNat = s.length - 1 := by omega
    omega
  have hfloor_lt : ∀ z : ℚ, 0 ≤ z → z ≤ N → (Int.floor z).toNat < s.length := by
    intro z hz0 hzN
    have h1 : (Int.floor z).toNat ≤ (Int.ceil z).toNat :=
      Int.toNat_le_toNat (Int.floor_le_ceil z)
    exact lt_of_le_of_lt h1 (hceil_lt z hzN)
  have hlohi : ∀ z : ℚ, (Int.floor z).toNat ≤ (Int.ceil z).toNat := by
    intro z
    exact Int.toNat_le_toNat (Int.floor_le_ceil z)
  have hg0 : ∀ z : ℚ, 0 ≤ z → 0 ≤ z - ((Int.floor z).toNat : ℚ) := by
    intro z hz
    rw [hfl0 z hz]
    have := Int.floor_le z
    linarith
  have hg1 : ∀ z : ℚ, 0 ≤ z → z - ((Int.floor z).toNat : ℚ) ≤ 1 := by
    intro z hz
    rw [hfl0 z hz]
    have := Int.lt_floor_add_one z
    push_cast at this ⊢
    linarith
  -- bound lemmas
  have low : ∀ z : ℚ, 0 ≤ z → z ≤ N →
      s.getD (Int.floor z).toNat 0 ≤
        s.getD (Int.floor z).toNat 0 +
          (z - ((Int.floor z).toNat : ℚ)) *
            (s.getD (Int.ceil z).toNat 0 - s.getD (Int.floor z).toNat 0) := by
    intro z hz0 hzN
    have hAB : s.getD (Int.floor z).toNat 0 ≤ s.getD (Int.ceil z).toNat 0 :=
      sortedGetD hs (hlohi z) (hceil_lt z hzN)
    nlinarith [hg0 z hz0]
  have high : ∀ z : ℚ, 0 ≤ z → z ≤ N →
      s.getD (Int.floor z).toNat 0 +
          (z - ((Int.floor z).toNat : ℚ)) *
            (s.getD (Int.ceil z).toNat 0 - s.getD (Int.floor z).toNat 0) ≤
        s.getD (Int.ceil z).toNat 0 := by
    intro z hz0 hzN
    have hAB : s.getD (Int.floor z).toNat 0 ≤ s.getD (Int.ceil z).toNat 0 :=
      sortedGetD hs (hlohi z) (hceil_lt z hzN)
    nlinarith [hg1 z hz0]
  have key : s.getD (Int.floor x).toNat 0 +
      (x - ((Int.floor x).toNat : ℚ)) *
        (s.getD (Int.ceil x).toNat 0 - s.getD (Int.floor x).toNat 0) ≤
      s.getD (Int.floor y).toNat 0 +
      (y - ((Int.floor y).toNat : ℚ)) *
        (s.getD (Int.ceil y).toNat 0 - s.getD (Int.floor y).toNat 0) := by
    rcases lt_or_eq_of_le (Int.floor_mono hxy) with hlt | heq
    · -- different floors: go through the order statistics
      have hceil_le_fly : (Int.ceil x).toNat ≤ (Int.floor y).toNat := by
        have h1 : Int.ceil x ≤ Int.floor x + 1 := Int.ceil_le_floor_add_one x
        exact Int.toNat_le_toNat (by omega)
      have hfly_lt : (Int.floor y).toNat < s.length := hfloor_lt y hy0 hyN
      calc s.getD (Int.floor x).toNat 0 +
            (x - ((Int.floor x).toNat : ℚ)) *
              (s.getD (Int.ceil x).toNat 0 - s.getD (Int.floor x).toNat 0)
          ≤ s.getD (Int.ceil x).toNat 0 := high x hx0 hxN
        _ ≤ s.getD (Int.floor y).toNat 0 := sortedGetD hs hceil_le_fly hfly_lt
        _ ≤ _ := low y hy0 hyN
    · -- same floor k
      rcases eq_or_lt_of_le (Int.floor_le x) with hxk | hxk
      · -- x equals its floor: the value at x is the lower order statistic
        have hval : x - ((Int.floor x).toNat : ℚ) = 0 := by
          rw [hfl0 x hx0]
          linarith
        rw [hval, zero_mul, add_zero, heq]
        exact low y hy0 hyN
      · -- x strictly above the common floor: both ceilings are floor + 1
        have hky : ((Int.floor y : ℤ) : ℚ) < y := by
          rw [← heq]
          linarith
        have hcx : Int.ceil x = Int.floor x + 1 := by
          have h1 := Int.ceil_le_floor_add_one x
          have h2 : Int.floor x < Int.ceil x := by
            by_contra hcon
            push_neg at hcon
            have hle : x ≤ ((Int.floor x : ℤ) : ℚ) :=
              le_trans (Int.le_ceil x) (by exact_mod_cast hcon)
            linarith
          omega
        have hcy : Int.ceil y = Int.floor y + 1 := by
          have h1 := Int.ceil_le_floor_add_one y
          have h2 : Int.floor y < Int.ceil y := by
            by_contra hcon
            push_neg at hcon
            have hle : y ≤ ((Int.floor y : ℤ) : ℚ) :=
              le_trans (Int.le_ceil y) (by exact_mod_cast hcon)
            linarith
          omega
        have hABy : s.getD (Int.floor y).toNat 0 ≤ s.getD (Int.ceil y).toNat 0 :=
          sortedGetD hs (hlohi y) (hceil_lt y hyN)
        have hABy2 : s.getD (Int.floor y).toNat 0 ≤ s.getD (Int.floor y + 1).toNat 0 := by
          rw [← hcy]
          exact hABy
        rw [heq, hcx, heq, hcy]
        nlinarith [mul_nonneg (sub_nonneg.mpr hxy) (sub_nonneg.mpr hABy2)]
  -- unfold interpSorted at both sides
  simp only [interpSorted, hn, if_false, ← hNdef, ← hxdef, ← hydef]
  exact key

theorem npQuantile_mono (xs : List ℚ) {p q : ℚ}
    (hp0 : 0 ≤ p) (hpq : p ≤ q) (hq1 : q ≤ 1) :
    npQuantile xs p ≤ npQuantile xs q :=
  interpSorted_mono (List.sorted_insertionSort (· ≤ ·) xs) hp0 hpq hq1

/-! ## List helper lemmas -/

theorem npRepeat2_map (f : ℚ → ℚ) (cov : List ℚ) :
    (npRepeat2 cov).map f = cov.flatMap (fun c => [f c, f c]) := by
  rw [npRepeat2, List.map_flatMap]
  rfl

theorem tile_zipWith (g : ℚ → ℚ → ℚ) (a b : ℚ) (cov : List ℚ) :
    List.zipWith g (npTile [a, b] cov.length) (npRepeat2 cov)
      = cov.flatMap (fun c => [g a c, g b c]) := by
  induction cov with
  | nil => rfl
  | cons c t ih =>
    simp only [npTile, npRepeat2, List.length_cons, List.replicate_succ, List.flatten_cons,
      List.flatMap_cons, List.cons_append, List.nil_append, List.zipWith_cons_cons] at ih ⊢
    rw [ih]

theorem flatMap_pair_length (f g : ℚ → ℚ) (cov : List ℚ) :
    (cov.flatMap (fun c => [f c, g c])).length = 2 * cov.length := by
  induction cov with
  | nil => rfl
  | cons c t ih =>
    simp only [List.flatMap_cons, List.cons_append, List.nil_append, List.length_cons,
      List.length_append] at ih ⊢
    omega

theorem flatMap_pair_getD_even (f g : ℚ → ℚ) (cov : List ℚ) (i : ℕ) (hi : i < cov.length) :
    (cov.flatMap (fun c => [f c, g c])).getD (2 * i) 0 = f (cov.getD i 0) := by
  induction cov generalizing i with
  | nil => simp at hi
  | cons c t ih =>
    cases i with
    | zero => rfl
    | succ j =>
      have h2 : 2 * (j + 1) = 2 * j + 1 + 1 := by ring
      rw [h2]
      simp only [List.flatMap_cons, List.cons_append, List.nil_append, List.getD_cons_succ]
      exact ih j (by simpa using hi)

theorem flatMap_pair_getD_odd (f g : ℚ → ℚ) (cov : List ℚ) (i : ℕ) (hi : i < cov.length) :
    (cov.flatMap (fun c => [f c, g c])).getD (2 * i + 1) 0 = g (cov.getD i 0) := by
  induction cov generalizing i with
  | nil => simp at hi
  | cons c t ih =>
    cases i with
    | zero => rfl
    | succ j =>
      have h2 : 2 * (j + 1) + 1 = 2 * j + 1 + 1 + 1 := by ring
      rw [h2]
      simp only [List.flatMap_cons, List.cons_append, List.nil_append, List.getD_cons_succ]
      exact ih j (by simpa using hi)

/-! ## The quantile engine row agrees with the spec's table -/

theorem row_eq_spec (method : Method) (m : ResidMatrix) (offset H : ℕ) (coverage : List ℚ) :
    pred_int_row method m offset H coverage
      = (specQuantileLevels method coverage H).map (npQuantile (specSample method m offset)) := by
  cases method with
  | empirical =>
    have harg : ∀ c : ℚ, 1 / 2 + -(1 / 2) * c = 1 / 2 - 1 / 2 * c := by
      intro c
      ring
    simp only [pred_int_row, quantileProbs, specQuantileLevels, specSample, tile_zipWith,
      List.map_flatMap, reduceIte, harg]
  | empirical_residual =>
    simp only [pred_int_row, quantileProbs, specQuantileLevels, specSample, npRepeat2_map,
      List.map_flatMap]
    rfl
  | conformal =>
    simp only [pred_int_row, quantileProbs, specQuantileLevels, specSample, npRepeat2,
      List.map_flatMap]
    rfl
  | conformal_bonferroni =>
    simp only [pred_int_row, quantileProbs, specQuantileLevels, specSample, npRepeat2_map,
      List.map_flatMap]
    rfl

/-! ## Interval assembly helper lemmas -/

theorem entries_getD (method : Method) (m : ResidMatrix) (offset H : ℕ)
    (cov : List ℚ) (y_pred : ℚ) (j : ℕ)
    (hj : j < (pred_int_row method m offset H cov).length) :
    (predict_interval_entries method m offset H cov y_pred).getD j 0
      = y_pred +
          (if method ∈ ABS_RESIDUAL_BASED then
            1 - 2 * (if j % 2 = 0 then (1 : ℚ) else 0)
          else 1) * (pred_int_row method m offset H cov).getD j 0 := by
  unfold predict_interval_entries
  have hlen : j < (((pred_int_row method m offset H cov).enum).map
      (fun p =>
        let sign : ℚ :=
          if method ∈ ABS_RESIDUAL_BASED then
            1 - 2 * (if p.1 % 2 = 0 then 1 else 0)
          else 1
        y_pred + sign * p.2)).length := by
    rw [List.length_map, List.enum_length]
    exact hj
  rw [List.getD_eq_getElem _ _ hlen, List.getElem_map, List.getElem_enum,
    List.getD_eq_getElem _ _ hj]

theorem row_single_conformal (m : ResidMatrix) (offset H : ℕ) (c : ℚ) :
    pred_int_row .conformal m offset H [c]
      = [npQuantile ((diagonalResids m offset).map (fun r => |r|)) c,
         npQuantile ((diagonalResids m offset).map (fun r => |r|)) c] := by
  rw [row_eq_spec]
  rfl

theorem row_single_bonferroni (m : ResidMatrix) (offset H : ℕ) (c : ℚ) :
    pred_int_row .conformal_bonferroni m offset H [c]
      = [npQuantile ((diagonalResids m offset).map (fun r => |r|)) (1 - (1 - c) / (H : ℚ)),
         npQuantile ((diagonalResids m offset).map (fun r => |r|)) (1 - (1 - c) / (H : ℚ))] := by
  rw [row_eq_spec]
  rfl

theorem row_single_empirical_residual (m : ResidMatrix) (offset H : ℕ) (c : ℚ) :
    pred_int_row .empirical_residual m offset H [c]
      = [npQuantile ((diagonalResids m offset).map (fun r => |r|)) (1 / 2 - 1 / 2 * c),
         npQuantile ((diagonalResids m offset).map (fun r => |r|)) (1 / 2 - 1 / 2 * c)] := by
  rw [row_eq_spec]
  rfl

theorem entries_single_abs (method : Method) (hmem : method ∈ ABS_RESIDUAL_BASED)
    (m : ResidMatrix) (offset H : ℕ) (c y_pred qv : ℚ)
    (hrow : pred_int_row method m offset H [c] = [qv, qv]) :
    predict_interval_entries method m offset H [c] y_pred
      = [y_pred - qv, y_pred + qv] := by
  unfold predict_interval_entries
  rw [hrow]
  simp only [List.enum_cons, List.enumFrom, List.map_cons, List.map_nil, hmem, if_true]
  norm_num
  ring

theorem width_single_abs (method : Method) (hmem : method ∈ ABS_RESIDUAL_BASED)
    (m : ResidMatrix) (offset H : ℕ) (c y_pred qv : ℚ)
    (hrow : pred_int_row method m offset H [c] = [qv, qv]) :
    interval_width method m offset H c y_pred = 2 * qv := by
  unfold interval_width
  rw [entries_single_abs method hmem m offset H c y_pred qv hrow]
  show (y_pred + qv) - (y_pred - qv) = 2 * qv
  ring

/-! ## Builder and updater helper lemmas -/

theorem range'_drop_eq : ∀ (k s n : ℕ), k ≤ n →
    (List.range' s n).drop k = List.range' (s + k) (n - k) := by
  intro k
  induction k with
  | zero =>
    intro s n _
    simp
  | succ j ih =>
    intro s n hk
    cases n with
    | zero => omega
    | succ m =>
      rw [List.range'_succ]
      have h1 : (s :: List.range' (s + 1) m).drop (j + 1) = (List.range' (s + 1) m).drop j :=
        rfl
      rw [h1, ih (s + 1) m (by omega)]
      have h2 : s + 1 + j = s + (j + 1) := by omega
      have h3 : m - j = m + 1 - (j + 1) := by omega
      rw [h2, h3]

theorem range'_max? : ∀ (b s : ℕ), (List.range' s (b + 1)).max? = some (s + b) := by
  intro b
  induction b with
  | zero =>
    intro s
    rfl
  | succ j ih =>
    intro s
    rw [List.range'_succ, List.max?_cons, ih (s + 1)]
    simp only [Option.elim_some]
    congr 1
    omega

theorem drop_range_max? (k n : ℕ) (h : k < n) :
    ((List.range n).drop k).max? = some (n - 1) := by
  rw [List.range_eq_range', range'_drop_eq k 0 n (le_of_lt h)]
  have h1 : n - k = (n - k - 1) + 1 := by omega
  rw [h1, range'_max?]
  congr 1
  omega

theorem parse_ok_bounds (n : ℕ) (spec : Option WindowSpec) (w : ℤ)
    (hn : 1 ≤ n) (h : parse_initial_window n spec = .ok w) :
    0 ≤ w ∧ w < (n : ℤ) := by
  unfold parse_initial_window at h
  cases spec with
  | none =>
    dsimp only at h
    split at h
    · simp at h
    · next hcond =>
        push_neg at hcond
        simp only [PyResult.ok.injEq] at h
        omega
  | some ws =>
    cases ws with
    | int i =>
      dsimp only at h
      split at h
      · simp at h
      · next hcond =>
          push_neg at hcond
          simp only [PyResult.ok.injEq] at h
          omega
    | frac q =>
      dsimp only at h
      split at h
      · simp at h
      · next hcond =>
          push_neg at hcond
          simp only [PyResult.ok.injEq] at h
          subst h
          constructor
          · refine Int.floor_nonneg.mpr ?_
            have hq0 : (0 : ℚ) ≤ q := le_of_lt hcond.1
            positivity
          · refine Int.floor_lt.mpr ?_
            have hnq : (0 : ℚ) < (n : ℚ) := by exact_mod_cast hn
            calc q * (n : ℚ) < 1 * (n : ℚ) := by
                  exact mul_lt_mul_of_pos_right hcond.2 hnq
              _ = (n : ℚ) := one_mul _
    | other =>
      simp at h

theorem compute_ok_index (fc : Forecaster) (y : List ℚ) (iw : Option WindowSpec)
    (sf : Option ℚ) (rng : ℕ) (old : Option ResidMatrix) (m' : ResidMatrix)
    (h : compute_sliding_residuals fc y iw sf rng old = .ok m') :
    ∃ w : ℤ, parse_initial_window y.length iw = .ok w
      ∧ m'.index = (List.range y.length).drop w.toNat := by
  unfold compute_sliding_residuals at h
  cases hp : parse_initial_window y.length iw with
  | exn e =>
    rw [hp] at h
    simp at h
  | ok w =>
    rw [hp] at h
    refine ⟨w, rfl, ?_⟩
    dsimp only at h
    split at h
    all_goals
      split at h
      · simp at h
      · simp only [PyResult.ok.injEq] at h
        rw [← h]

/-- Claim C8: the incremental updater is idempotent at the matrix
level: if one `update` call on state `st` with data `y` produces the
matrix `st'`, a second call with identical data leaves `st'`
unchanged (the recompute guard `index.max() < y.index.max()` is false
after the first call), regardless of the ambient RNG state of the
second call. -/
theorem update_matrix_idempotent (fc : Forecaster) (st st' : ResidMatrix) (y : List ℚ)
    (iw : Option WindowSpec) (sf : Option ℚ) (rng rng' : ℕ)
    (h : update_step fc st y iw sf rng = .ok st') :
    update_step fc st' y iw sf rng' = .ok st' := by
  unfold update_step at h ⊢
  cases hm : st.index.max? with
  | none =>
    rw [hm] at h
    simp only [PyResult.ok.injEq] at h
    subst h
    rw [hm]
  | some mMax =>
    rw [hm] at h
    cases hy : (List.range y.length).max? with
    | none =>
      rw [hy] at h
      simp only [PyResult.ok.injEq] at h
      subst h
      rw [hm]
    | some yMax =>
      rw [hy] at h
      simp only at h
      by_cases hlt : mMax < yMax
      · rw [if_pos hlt] at h
        obtain ⟨w, hw, hidx⟩ := compute_ok_index fc y iw sf rng (some st) st' h
        have hn1 : 1 ≤ y.length := by
          rcases Nat.eq_zero_or_pos y.length with h0 | h0
          · rw [h0] at hy
            simp at hy
          · exact h0
        have hb := parse_ok_bounds y.length iw w hn1 hw
        have hklt : w.toNat < y.length := by omega
        have hmax : st'.index.max? = some (y.length - 1) := by
          rw [hidx]
          exact drop_range_max? _ _ hklt
        have hyval : yMax = y.length - 1 := by
          have hall : (List.range y.length).max? = some (y.length - 1) := by
            have hd := drop_range_max? 0 y.length (by omega)
            simpa using hd
          rw [hy] at hall
          injection hall with hall
        subst hyval
        rw [hmax]
        dsimp only
        rw [if_neg (by omega)]
      · rw [if_neg hlt] at h
        simp only [PyResult.ok.injEq] at h
        subst h
        rw [hm]
        dsimp only
        rw [if_neg hlt]

/-! ## Claims -/

/-- Claim C1: for every residual matrix, horizon offset `h`, horizon
count `H = |fh|` and coverage vector, `_predict_interval` computes the
per-horizon quantile input exactly as specified for each method tag:
`empirical` takes quantiles `0.5 + (-0.5, +0.5) ⊗ c̄` of the signed
lag-`h` residuals, `empirical_residual` takes quantiles `0.5 - 0.5·c̄₂`
of the absolute lag-`h` residuals, `conformal` takes quantiles `c̄₂`,
and `conformal_bonferroni` takes quantiles `1 - (1 - c̄₂)/H`, of the
absolute residuals, where the lag-`h` residuals are the `h`-th
diagonal of the residual matrix with `NaN`s removed. -/
theorem predict_interval_quantiles_match_spec (method : Method) (m : ResidMatrix)
    (offset H : ℕ) (coverage : List ℚ) :
    pred_int_row method m offset H coverage
      = (specQuantileLevels method coverage H).map (npQuantile (specSample method m offset)) :=
  row_eq_spec method m offset H coverage

/-- Claim C3 (code behaviour at the failing input): when
`predict_residuals` raises `IndexError` for an anchor, the worker does
emit the warning, but then raises `UnboundLocalError` (the `except`
branch falls through to `return residuals` with `residuals` never
assigned), and the whole matrix build fails instead of recording a
`NaN` row and completing. -/
theorem residual_row_failure_propagates :
    (get_residuals_matrix_row fcFailAt2 [0, 1, 2, 3] 2).warnings
        = ["Couldn't predict after fitting on time series of length 2"]
    ∧ (get_residuals_matrix_row fcFailAt2 [0, 1, 2, 3] 2).value = .exn "UnboundLocalError"
    ∧ compute_sliding_residuals fcFailAt2 [0, 1, 2, 3] (some (.int 2)) none 0 none
        = .exn "UnboundLocalError" := by
  refine ⟨?_, ?_, ?_⟩
  · decide
  · decide
  · decide

/-- Claim C4 is false as stated: constructing the wrapper with
`initial_window = 5000` succeeds (the constructor never inspects
`initial_window`); the `ValueError` appears only when the window is
parsed, against `|y| = 20`, during residual computation. -/
theorem invalid_window_construction_succeeds :
    conformalIntervalsInit "empirical" (some (.int 5000)) none = .ok ()
    ∧ parse_initial_window 20 (some (.int 5000)) = .exn "ValueError" := by
  refine ⟨?_, ?_⟩
  · decide
  · decide

/-- Claim C5 (amended): when `sample_frac` is unset the build ignores
the ambient RNG state entirely, so any two runs with identical inputs
produce pointwise equal matrices (rows are keyed by anchor). -/
theorem build_deterministic_without_sampling (fc : Forecaster) (y : List ℚ)
    (iw : Option WindowSpec) (rng rng' : ℕ) (old : Option ResidMatrix) :
    compute_sliding_residuals fc y iw none rng old
      = compute_sliding_residuals fc y iw none rng' old := by
  cases hp : parse_initial_window y.length iw with
  | exn e => simp [compute_sliding_residuals, hp]
  | ok w => simp [compute_sliding_residuals, hp, truthy]

/-- Claim C10: `sample_frac` is never validated (construction accepts
any value for it), and a falsy `sample_frac` (`0`, `0.0` or `None`) is
treated as absent: the build with `sample_frac = 0` equals the
unsampled build, with no error raised. -/
theorem sample_frac_falsy_unvalidated (fc : Forecaster) (y : List ℚ)
    (iw : Option WindowSpec) (sf : Option ℚ) (rng : ℕ) (old : Option ResidMatrix) :
    conformalIntervalsInit "empirical" iw sf = .ok ()
    ∧ compute_sliding_residuals fc y iw (some 0) rng old
        = compute_sliding_residuals fc y iw none rng old := by
  have h0 : truthy (some 0) = false := by decide
  constructor
  · rfl
  · cases hp : parse_initial_window y.length iw with
    | exn e => simp [compute_sliding_residuals, hp]
    | ok w => simp [compute_sliding_residuals, hp, truthy, h0]

/-- Claim C5 is false as stated: with `sample_frac` set, two builds
with identical `y`, forecaster, `initial_window`, `sample_frac` and
worker count can produce different matrices, because the anchor
subset is drawn from the ambient global RNG (`Series.sample` is
called without a seed). -/
theorem sampling_depends_on_rng_state :
    compute_sliding_residuals fcZero [0, 1, 2, 3, 4, 5] (some (.int 2)) (some (1 / 2)) 0 none
      ≠ compute_sliding_residuals fcZero [0, 1, 2, 3, 4, 5] (some (.int 2)) (some (1 / 2)) 1 none := by
  have hp : parse_initial_window ([0, 1, 2, 3, 4, 5] : List ℚ).length (some (.int 2))
      = .ok 2 := by decide
  have httrue : truthy (some ((1 : ℚ) / 2)) = true := by
    simp [truthy]
  have hfull : (List.range ([0, 1, 2, 3, 4, 5] : List ℚ).length).drop (Int.toNat 2)
      = [2, 3, 4, 5] := rfl
  have hsampA : pandasSampleNoSeed 0 (1 / 2) [2, 3, 4, 5] = [2, 3] := by
    norm_num [pandasSampleNoSeed, List.rotateLeft]
    rfl
  have hsampB : pandasSampleNoSeed 1 (1 / 2) [2, 3, 4, 5] = [3, 4] := by
    norm_num [pandasSampleNoSeed, List.rotateLeft]
    rfl
  have hrowZ : ∀ i : ℕ, (get_residuals_matrix_row fcZero [0, 1, 2, 3, 4, 5] i).value
      = .ok (((List.range 6).drop i).map
          (fun j => (j, ([0, 1, 2, 3, 4, 5] : List ℚ).getD j 0 - 0))) := by
    intro i
    rfl
  have hdrop2 : (List.range 6).drop 2 = [2, 3, 4, 5] := rfl
  have hdrop3 : (List.range 6).drop 3 = [3, 4, 5] := rfl
  have hdrop4 : (List.range 6).drop 4 = [4, 5] := rfl
  simp only [compute_sliding_residuals, hp, hfull, httrue, Option.getD_some, if_true,
    hsampA, hsampB, List.map_cons, List.map_nil, hrowZ, List.any_cons, List.any_nil,
    Bool.or_false]
  simp [List.lookup, hdrop2, hdrop3, hdrop4, hrowZ, List.map_cons, List.map_nil]

/-- Claim C7 is false as stated: for `n = 5` the missing-window
default `max(10, ⌊0.1·n⌋) = 10` fails the `0 < w < n` validation, so
the parser raises instead of returning `10`. -/
theorem default_window_small_n_raises :
    parse_initial_window 5 none = .exn "ValueError"
    ∧ parse_initial_window 5 none ≠ .ok (max 10 (Int.floor ((5 : ℚ) / 10))) := by
  have h : parse_initial_window 5 none = .exn "ValueError" := by
    unfold parse_initial_window
    dsimp only
    rw [if_pos]
    left
    calc ((5 : ℕ) : ℤ) ≤ 10 := by norm_num
      _ ≤ max 10 (Int.floor (((5 : ℕ) : ℚ) / 10)) := le_max_left _ _
  refine ⟨h, ?_⟩
  rw [h]
  simp

/-- Claim C7 (amended): the parser returns `max(10, ⌊0.1·n⌋)` for a
missing `initial_window` only when that default is itself a valid
window, i.e. when `n > 10`; for `n ≤ 10` the missing-window default
fails validation and raises.  Integers are returned unchanged under
`0 < w < n`, fractions in `(0, 1)` are scaled to `⌊w·n⌋`, and every
other case (including non-numeric types) raises the invalid-window
error. -/
theorem parse_initial_window_cases (n : ℕ) (i : ℤ) (q : ℚ) :
    (10 < n → parse_initial_window n none = .ok (max 10 (Int.floor ((n : ℚ) / 10))))
    ∧ (n ≤ 10 → parse_initial_window n none = .exn "ValueError")
    ∧ (0 < i → i < (n : ℤ) → parse_initial_window n (some (.int i)) = .ok i)
    ∧ (i ≤ 0 ∨ (n : ℤ) ≤ i → parse_initial_window n (some (.int i)) = .exn "ValueError")
    ∧ (0 < q → q < 1 → parse_initial_window n (some (.frac q)) = .ok (Int.floor (q * n)))
    ∧ (q ≤ 0 ∨ 1 ≤ q → parse_initial_window n (some (.frac q)) = .exn "ValueError")
    ∧ parse_initial_window n (some .other) = .exn "ValueError" := by
  have hfl : ∀ hn : 0 < n, Int.floor ((n : ℚ) / 10) < (n : ℤ) := by
    intro hn
    refine Int.floor_lt.mpr ?_
    have hnq : (0 : ℚ) < (n : ℚ) := by exact_mod_cast hn
    push_cast
    calc (n : ℚ) / 10 < (n : ℚ) := by
          refine div_lt_self hnq ?_
          norm_num
      _ = ((n : ℤ) : ℚ) := by push_cast; rfl
  refine ⟨?_, ?_, ?_, ?_, ?_, ?_, ?_⟩
  · intro hn
    unfold parse_initial_window
    dsimp only
    rw [if_neg]
    push_neg
    constructor
    · refine max_lt ?_ (hfl (by omega))
      exact_mod_cast hn
    · calc (0 : ℤ) < 10 := by norm_num
        _ ≤ max 10 (Int.floor ((n : ℚ) / 10)) := le_max_left _ _
  · intro hn
    unfold parse_initial_window
    dsimp only
    rw [if_pos]
    left
    calc (n : ℤ) ≤ 10 := by exact_mod_cast hn
      _ ≤ max 10 (Int.floor ((n : ℚ) / 10)) := le_max_left _ _
  · intro h1 h2
    unfold parse_initial_window
    dsimp only
    rw [if_neg (by omega)]
  · intro hbad
    unfold parse_initial_window
    dsimp only
    rw [if_pos (by omega)]
  · intro h1 h2
    unfold parse_initial_window
    dsimp only
    rw [if_neg (by push_neg; exact ⟨h1, h2⟩)]
  · intro hbad
    unfold parse_initial_window
    dsimp only
    rw [if_pos hbad]
  · rfl

/-- Witness for `parse_initial_window_cases`, at `n = 20`, `n = 5`,
`i = 7`, `i = 5000`, `q = 1/2` and `q = 3/2`. -/
theorem parse_initial_window_cases_witness :
    parse_initial_window 20 none = .ok (max 10 (Int.floor ((20 : ℚ) / 10)))
    ∧ parse_initial_window 5 none = .exn "ValueError"
    ∧ parse_initial_window 20 (some (.int 7)) = .ok 7
    ∧ parse_initial_window 20 (some (.int 5000)) = .exn "ValueError"
    ∧ parse_initial_window 20 (some (.frac (1 / 2))) = .ok (Int.floor ((1 / 2 : ℚ) * 20))
    ∧ parse_initial_window 20 (some (.frac (3 / 2))) = .exn "ValueError"
    ∧ parse_initial_window 20 (some .other) = .exn "ValueError" :=
  ⟨(parse_initial_window_cases 20 7 (1 / 2)).1 (by norm_num),
   (parse_initial_window_cases 5 7 (1 / 2)).2.1 (by norm_num),
   (parse_initial_window_cases 20 7 (1 / 2)).2.2.1 (by norm_num) (by norm_num),
   (parse_initial_window_cases 20 5000 (1 / 2)).2.2.2.1 (Or.inr (by norm_num)),
   (parse_initial_window_cases 20 7 (1 / 2)).2.2.2.2.1 (by norm_num) (by norm_num),
   (parse_initial_window_cases 20 7 (3 / 2)).2.2.2.2.2.1 (Or.inr (by norm_num)),
   (parse_initial_window_cases 20 7 (1 / 2)).2.2.2.2.2.2⟩

/-- Claim C4 (amended): an invalid `initial_window` (integer outside
`(0, n)`, fraction outside `(0, 1)`, or a non-numeric type) is
accepted silently at construction; the `ValueError` is raised only
when the window is parsed during residual-matrix computation (at fit
with an early horizon, or at the first predict/update that builds the
matrix). -/
theorem invalid_window_error_deferred (n : ℕ) (w : WindowSpec) (fc : Forecaster)
    (y : List ℚ) (sf : Option ℚ) (rng : ℕ)
    (hn : y.length = n)
    (hbad : match w with
      | .int i => i ≤ 0 ∨ (n : ℤ) ≤ i
      | .frac q => q ≤ 0 ∨ 1 ≤ q
      | .other => True) :
    conformalIntervalsInit "empirical" (some w) sf = .ok ()
    ∧ parse_initial_window n (some w) = .exn "ValueError"
    ∧ compute_sliding_residuals fc y (some w) sf rng none = .exn "ValueError" := by
  have hparse : parse_initial_window n (some w) = .exn "ValueError" := by
    cases w with
    | int i =>
      unfold parse_initial_window
      dsimp only
      rw [if_pos (by omega)]
    | frac q =>
      unfold parse_initial_window
      dsimp only
      rw [if_pos hbad]
    | other => rfl
  refine ⟨rfl, hparse, ?_⟩
  unfold compute_sliding_residuals
  rw [hn, hparse]

/-- Witness for `invalid_window_error_deferred`, at
`initial_window = 5000` against `|y| = 20`. -/
theorem invalid_window_error_deferred_witness :
    conformalIntervalsInit "empirical" (some (.int 5000)) none = .ok ()
    ∧ parse_initial_window 20 (some (.int 5000)) = .exn "ValueError"
    ∧ compute_sliding_residuals fcZero (List.replicate 20 0) (some (.int 5000)) none 0 none
        = .exn "ValueError" :=
  invalid_window_error_deferred 20 (.int 5000) fcZero (List.replicate 20 0) none 0
    (by simp) (Or.inr (by norm_num))

/-- Witness for `update_matrix_idempotent` on a concrete updated
state. -/
theorem update_matrix_idempotent_witness :
    update_step fcZero MUpd6 [0, 1, 2, 3, 4, 5] (some (.int 2)) none 99 = .ok MUpd6 :=
  update_matrix_idempotent fcZero MUpd6 MUpd6 [0, 1, 2, 3, 4, 5] (some (.int 2)) none 0 99 rfl

/-- Claim C2 is false as stated: for method `empirical_residual`, on a
fixed residual sample with lag-1 residuals `[0, 1]`, the interval
width at coverage `1/5` exceeds the width at coverage `4/5` — width is
decreasing, not non-decreasing, in the coverage. -/
theorem empirical_residual_width_not_monotone :
    ¬ (interval_width .empirical_residual Mex 1 1 (1 / 5) 0
        ≤ interval_width .empirical_residual Mex 1 1 (4 / 5) 0) := by
  have hd : diagonalResids Mex 1 = [0, 1] := rfl
  have hsort : List.insertionSort (· ≤ ·) [(0 : ℚ), 1] = [0, 1] := by
    norm_num [List.insertionSort, List.orderedInsert]
  have hq1 : npQuantile [0, 1] (2 / 5) = 2 / 5 := by
    have hcil : Int.ceil ((2 : ℚ) / 5) = 1 := by
      rw [Int.ceil_eq_iff]
      norm_num
    have hcl : (Int.ceil ((2 : ℚ) / 5)).toNat = 1 := by
      rw [hcil]
      rfl
    unfold npQuantile
    rw [hsort]
    unfold interpSorted
    norm_num [List.getD, hcl]
  have hq2 : npQuantile [0, 1] (1 / 10) = 1 / 10 := by
    have hcil : Int.ceil ((1 : ℚ) / 10) = 1 := by
      rw [Int.ceil_eq_iff]
      norm_num
    have hcl : (Int.ceil ((1 : ℚ) / 10)).toNat = 1 := by
      rw [hcil]
      rfl
    unfold npQuantile
    rw [hsort]
    unfold interpSorted
    norm_num [List.getD, hcl]
  rw [width_single_abs .empirical_residual (by decide) Mex 1 1 (1 / 5) 0 _
        (row_single_empirical_residual Mex 1 1 (1 / 5)),
      width_single_abs .empirical_residual (by decide) Mex 1 1 (4 / 5) 0 _
        (row_single_empirical_residual Mex 1 1 (4 / 5))]
  rw [hd]
  have habs : (([0, 1] : List ℚ).map (fun r => |r|)) = [0, 1] := by norm_num
  rw [habs]
  have harg1 : (1 : ℚ) / 2 - 1 / 2 * (1 / 5) = 2 / 5 := by norm_num
  have harg2 : (1 : ℚ) / 2 - 1 / 2 * (4 / 5) = 1 / 10 := by norm_num
  rw [harg1, harg2, hq1, hq2]
  norm_num

/-- Claim C2 (amended): for fixed horizon and residual sample, the
interval width is non-decreasing in the coverage for methods
`conformal` and `conformal_bonferroni`, but for `empirical_residual`
it is non-increasing in the coverage (the code takes the
`0.5 - 0.5·c` quantile of the absolute residuals, which shrinks as
`c` grows). -/
theorem coverage_monotonicity_amended (m : ResidMatrix) (offset H : ℕ) (c c' y_pred : ℚ)
    (h0 : 0 ≤ c) (hcc : c ≤ c') (h1 : c' ≤ 1) (hH : 1 ≤ H) :
    interval_width .conformal m offset H c y_pred
        ≤ interval_width .conformal m offset H c' y_pred
    ∧ interval_width .conformal_bonferroni m offset H c y_pred
        ≤ interval_width .conformal_bonferroni m offset H c' y_pred
    ∧ interval_width .empirical_residual m offset H c' y_pred
        ≤ interval_width .empirical_residual m offset H c y_pred := by
  have hc1 : c ≤ 1 := le_trans hcc h1
  have hH1 : (1 : ℚ) ≤ (H : ℚ) := by exact_mod_cast hH
  have hH0 : (0 : ℚ) < (H : ℚ) := by linarith
  refine ⟨?_, ?_, ?_⟩
  · rw [width_single_abs .conformal (by decide) m offset H c y_pred _
          (row_single_conformal m offset H c),
        width_single_abs .conformal (by decide) m offset H c' y_pred _
          (row_single_conformal m offset H c')]
    have hm := npQuantile_mono ((diagonalResids m offset).map (fun r => |r|)) h0 hcc h1
    linarith
  · rw [width_single_abs .conformal_bonferroni (by decide) m offset H c y_pred _
          (row_single_bonferroni m offset H c),
        width_single_abs .conformal_bonferroni (by decide) m offset H c' y_pred _
          (row_single_bonferroni m offset H c')]
    have e1 : (0 : ℚ) ≤ 1 - (1 - c) / (H : ℚ) := by
      have hds : (1 - c) / (H : ℚ) ≤ 1 - c := div_le_self (by linarith) hH1
      linarith
    have e2 : 1 - (1 - c) / (H : ℚ) ≤ 1 - (1 - c') / (H : ℚ) := by
      have hdd : (1 - c') / (H : ℚ) ≤ (1 - c) / (H : ℚ) := by
        gcongr
      linarith

    have e3 : 1 - (1 - c') / (H : ℚ) ≤ 1 := by
      have hdn : (0 : ℚ) ≤ (1 - c') / (H : ℚ) := div_nonneg (by linarith) (by linarith)
      linarith
    have hm := npQuantile_mono ((diagonalResids m offset).map (fun r => |r|)) e1 e2 e3
    linarith
  · rw [width_single_abs .empirical_residual (by decide) m offset H c y_pred _
          (row_single_empirical_residual m offset H c),
        width_single_abs .empirical_residual (by decide) m offset H c' y_pred _
          (row_single_empirical_residual m offset H c')]
    have e1 : (0 : ℚ) ≤ 1 / 2 - 1 / 2 * c' := by linarith
    have e2 : (1 : ℚ) / 2 - 1 / 2 * c' ≤ 1 / 2 - 1 / 2 * c := by linarith
    have e3 : (1 : ℚ) / 2 - 1 / 2 * c ≤ 1 := by linarith
    have hm := npQuantile_mono ((diagonalResids m offset).map (fun r => |r|)) e1 e2 e3
    linarith

/-- Witness for `coverage_monotonicity_amended`, at coverages `1/5`
and `4/5` on the fixture matrix. -/
theorem coverage_monotonicity_amended_witness :
    interval_width .conformal Mex 1 1 (1 / 5) 0 ≤ interval_width .conformal Mex 1 1 (4 / 5) 0
    ∧ interval_width .conformal_bonferroni Mex 1 1 (1 / 5) 0
        ≤ interval_width .conformal_bonferroni Mex 1 1 (4 / 5) 0
    ∧ interval_width .empirical_residual Mex 1 1 (4 / 5) 0
        ≤ interval_width .empirical_residual Mex 1 1 (1 / 5) 0 :=
  coverage_monotonicity_amended Mex 1 1 (1 / 5) (4 / 5) 0 (by norm_num) (by norm_num)
    (by norm_num) (by norm_num)

/-- Claim C6: for identical inputs and `H = |fh| ≥ 1`, the intervals
of `conformal_bonferroni` are at least as wide as those of
`conformal` at every horizon and side: the Bonferroni lower bound is
at most the conformal lower bound and the Bonferroni upper bound is
at least the conformal upper bound. -/
theorem bonferroni_at_least_conformal (m : ResidMatrix) (offset H : ℕ) (c y_pred : ℚ)
    (h0 : 0 ≤ c) (h1 : c ≤ 1) (hH : 1 ≤ H) :
    (predict_interval_entries .conformal_bonferroni m offset H [c] y_pred).getD 0 0
        ≤ (predict_interval_entries .conformal m offset H [c] y_pred).getD 0 0
    ∧ (predict_interval_entries .conformal m offset H [c] y_pred).getD 1 0
        ≤ (predict_interval_entries .conformal_bonferroni m offset H [c] y_pred).getD 1 0 := by
  have hH1 : (1 : ℚ) ≤ (H : ℚ) := by exact_mod_cast hH
  rw [entries_single_abs .conformal (by decide) m offset H c y_pred _
        (row_single_conformal m offset H c),
      entries_single_abs .conformal_bonferroni (by decide) m offset H c y_pred _
        (row_single_bonferroni m offset H c)]
  simp only [List.getD_cons_zero, List.getD_cons_succ]
  have e2 : c ≤ 1 - (1 - c) / (H : ℚ) := by
    have hds : (1 - c) / (H : ℚ) ≤ 1 - c := div_le_self (by linarith) hH1
    linarith
  have e3 : 1 - (1 - c) / (H : ℚ) ≤ 1 := by
    have hdn : (0 : ℚ) ≤ (1 - c) / (H : ℚ) := div_nonneg (by linarith) (by linarith)
    linarith
  have hm := npQuantile_mono ((diagonalResids m offset).map (fun r => |r|)) h0 e2 e3
  constructor
  · linarith
  · linarith

/-- Witness for `bonferroni_at_least_conformal`, with `H = 3` and
coverage `9/10` on the fixture matrix. -/
theorem bonferroni_at_least_conformal_witness :
    (predict_interval_entries .conformal_bonferroni Mex 1 3 [9 / 10] 0).getD 0 0
        ≤ (predict_interval_entries .conformal Mex 1 3 [9 / 10] 0).getD 0 0
    ∧ (predict_interval_entries .conformal Mex 1 3 [9 / 10] 0).getD 1 0
        ≤ (predict_interval_entries .conformal_bonferroni Mex 1 3 [9 / 10] 0).getD 1 0 :=
  bonferroni_at_least_conformal Mex 1 3 (9 / 10) 0 (by norm_num) (by norm_num) (by norm_num)

theorem symmetry_aux (method : Method) (hmem : method ∈ ABS_RESIDUAL_BASED)
    (m : ResidMatrix) (offset H : ℕ) (cov : List ℚ) (y_pred : ℚ) (i : ℕ)
    (hi : i < cov.length) (f : ℚ → ℚ)
    (hrow : pred_int_row method m offset H cov = cov.flatMap (fun c => [f c, f c])) :
    (predict_interval_entries method m offset H cov y_pred).getD (2 * i + 1) 0 - y_pred
      = y_pred - (predict_interval_entries method m offset H cov y_pred).getD (2 * i) 0 := by
  have hlen : (pred_int_row method m offset H cov).length = 2 * cov.length := by
    rw [hrow, flatMap_pair_length]
  have hja : 2 * i < (pred_int_row method m offset H cov).length := by omega
  have hjb : 2 * i + 1 < (pred_int_row method m offset H cov).length := by omega
  rw [entries_getD method m offset H cov y_pred (2 * i) hja,
      entries_getD method m offset H cov y_pred (2 * i + 1) hjb]
  rw [hrow, flatMap_pair_getD_even f f cov i hi, flatMap_pair_getD_odd f f cov i hi]
  have hpar1 : (2 * i) % 2 = 0 := by omega
  have hpar2 : (2 * i + 1) % 2 = 1 := by omega
  rw [hpar1, hpar2]
  simp only [hmem, if_true]
  norm_num

/-- Claim C9: for methods `empirical_residual` and `conformal`, the
interval bounds are symmetric around the point forecast at every
horizon and coverage: upper minus point forecast equals point
forecast minus lower. -/
theorem abs_methods_interval_symmetry (method : Method)
    (hm : method = .empirical_residual ∨ method = .conformal)
    (m : ResidMatrix) (offset H : ℕ) (cov : List ℚ) (y_pred : ℚ) (i : ℕ)
    (hi : i < cov.length) :
    (predict_interval_entries method m offset H cov y_pred).getD (2 * i + 1) 0 - y_pred
      = y_pred - (predict_interval_entries method m offset H cov y_pred).getD (2 * i) 0 := by
  rcases hm with h | h
  · subst h
    refine symmetry_aux _ (by decide) m offset H cov y_pred i hi
      (fun c => npQuantile ((diagonalResids m offset).map (fun r => |r|)) (1 / 2 - 1 / 2 * c)) ?_
    rw [row_eq_spec]
    simp only [specQuantileLevels, List.map_flatMap]
    rfl
  · subst h
    refine symmetry_aux _ (by decide) m offset H cov y_pred i hi
      (fun c => npQuantile ((diagonalResids m offset).map (fun r => |r|)) c) ?_
    rw [row_eq_spec]
    simp only [specQuantileLevels, List.map_flatMap]
    rfl

/-- Witness for `abs_methods_interval_symmetry`, for `conformal` at
coverage `4/5` on the fixture matrix. -/
theorem abs_methods_interval_symmetry_witness :
    (predict_interval_entries .conformal Mex 1 1 [4 / 5] 0).getD (2 * 0 + 1) 0 - 0
      = 0 - (predict_interval_entries .conformal Mex 1 1 [4 / 5] 0).getD (2 * 0) 0 :=
  abs_methods_interval_symmetry .conformal (Or.inr rfl) Mex 1 1 [4 / 5] 0 0 (by norm_num)

end Conformal
